import Mathlib

/-!
Verification of the renpy-img-prune repository.

The repository scans a Ren'Py project for image files, scans its `.rpy`
scripts for textual image references, reconciles the two key sets, and lets
a GUI delete the unused images.

Shallow embedding conventions used throughout this file:
* A filesystem path is modelled as its list of components (`AbsPath`); an
  absolute, already-resolved path.  `Path.resolve()` is the identity on such
  paths (symbolic links are not part of the modelled filesystem state), and
  `Path.parents` membership becomes the proper-prefix test on component
  lists.
* The mutable filesystem is an explicit state `FS`: the list of paths of the
  files that currently exist, plus the list of paths on which `unlink`
  raises an `OSError` (permission errors and the like).  Stateful Python
  code becomes a fold that threads an `FS` value.
* Python sets handed to the deletion routines are modelled by the sorted
  list the source builds from them (`sorted(list(files_to_delete))`); where
  set cardinality matters a `Nodup` hypothesis appears.
* Strings are Lean `String`s / `List Char`; Python `str` helpers
  (`str.strip`, `re.sub`, `pathlib` name surgery) are re-implemented below,
  following CPython's documented POSIX semantics.
-/

namespace RenpyImgPrune

/-- An absolute, resolved filesystem path, as its list of components.
`["home", "user", "a.png"]` stands for `/home/user/a.png`. -/
abbrev AbsPath := List String

/-- Explicit filesystem state threaded through the deletion routines:
`live` are the files that exist, `failing` the paths whose `unlink`
raises an I/O error when attempted. -/
structure FS where
  live : List AbsPath
  failing : List AbsPath
deriving DecidableEq

/-- `base in file.parents` (Python `pathlib`): the parents of
`/a/b/c` are `/a/b`, `/a` and `/`, i.e. exactly the proper prefixes of the
component list. -/
def inParents (base p : AbsPath) : Bool :=
  base.isPrefixOf p && decide (base.length < p.length)

/-- `path.parent` (Python `pathlib`): drop the last component; the parent
of the root is the root itself. -/
def pathParent (p : AbsPath) : AbsPath := p.dropLast

/-- `path.unlink()` on a path that exists and is not failing: the file is
removed from the filesystem. -/
def unlinkFS (σ : FS) (p : AbsPath) : FS :=
  ⟨σ.live.filter (fun q => q ≠ p), σ.failing⟩

/-- One iteration of the loop of `file_utils.perform_safe_deletion`
(src/file_utils.py, lines 60-93), acting on the accumulator
`((deleted_count, error_count), filesystem)`:

* safety check: if `base_images_dir_abs not in file_path_abs.parents` and
  `file_path_abs.parent != base_images_dir_abs`, count an error and skip;
* else, if the file exists: `unlink` it — when the unlink raises, the
  surrounding `except` block counts an error; otherwise `deleted_count`
  is incremented;
* else (file gone already): print a skip message only — neither counter
  is touched. -/
def delStep (base : AbsPath) (acc : (Nat × Nat) × FS) (p : AbsPath) :
    (Nat × Nat) × FS :=
  if ¬ inParents base p ∧ pathParent p ≠ base then
    ((acc.1.1, acc.1.2 + 1), acc.2)
  else if p ∈ acc.2.live then
    if p ∈ acc.2.failing then ((acc.1.1, acc.1.2 + 1), acc.2)
    else ((acc.1.1 + 1, acc.1.2), unlinkFS acc.2 p)
  else acc

/-- `file_utils.perform_safe_deletion` (src/file_utils.py, lines 41-96):
processes `sorted(list(files_to_delete))` — here the list `files` — in
order and returns the pair `(deleted_count, error_count)` together with the
final filesystem state. -/
def perform_safe_deletion (files : List AbsPath) (base : AbsPath) (σ : FS) :
    (Nat × Nat) × FS :=
  files.foldl (delStep base) ((0, 0), σ)

/-- The value returned by `gui_viewer.perform_safe_deletion`: a bare pair
when the input set is empty (`return 0, 0`), otherwise the triple
`(deleted_count, error_count, files_successfully_deleted)`. -/
inductive GuiReturn where
  | pair (deleted errors : Nat)
  | triple (deleted errors : Nat) (succ : List AbsPath)
deriving DecidableEq

/-- One iteration of the loop of `gui_viewer.perform_safe_deletion`
(src/gui_viewer.py, lines 24-36): `f.unlink()` with no existence check and
no base-directory check; on success count a deletion and record `f`, on any
exception count an error.  `unlink` raises `FileNotFoundError` when the
file does not exist, and the modelled I/O error when `f` is failing. -/
def guiStep (acc : (Nat × Nat × List AbsPath) × FS) (p : AbsPath) :
    (Nat × Nat × List AbsPath) × FS :=
  if p ∈ acc.2.live ∧ p ∉ acc.2.failing then
    ((acc.1.1 + 1, acc.1.2.1, acc.1.2.2 ++ [p]), unlinkFS acc.2 p)
  else ((acc.1.1, acc.1.2.1 + 1, acc.1.2.2), acc.2)

/-- `gui_viewer.perform_safe_deletion` (src/gui_viewer.py, lines 15-44):
the "placeholder" deletion the review GUI actually calls.  It really
unlinks the files (the loop above), but afterwards overwrites its results
with `deleted_count = len(files_to_delete)`, `error_count = 0`,
`files_successfully_deleted = set(files_to_delete)` and returns those.
`base_dir` is used only for printing.  An empty input returns the bare pair
`(0, 0)`. -/
def gui_perform_safe_deletion (files : List AbsPath) (_base : AbsPath)
    (σ : FS) : GuiReturn × FS :=
  if files = [] then (GuiReturn.pair 0 0, σ)
  else
    let r := files.foldl guiStep ((0, 0, []), σ)
    (GuiReturn.triple files.length 0 files, r.2)

/-! ### Image enumerator (src/file_utils.py, `get_image_names`) -/

/-- Index of the last `'.'` of a string, CPython `str.rfind('.')` restricted
to a found/not-found answer. -/
def lastDotIdx (s : String) : Option Nat :=
  match s.data.reverse.findIdx? (fun c => c = '.') with
  | none => none
  | some j => some (s.data.length - 1 - j)

/-- CPython `pathlib.PurePath.suffix` of a file name: the part from the last
dot on, provided that dot is neither the first nor the last character;
otherwise the empty string. -/
def pySuffix (name : String) : String :=
  match lastDotIdx name with
  | none => ""
  | some i =>
    if 0 < i ∧ i < name.data.length - 1 then (name.data.drop i).asString
    else ""

/-- CPython `pathlib.PurePath.stem` of a file name: the name with
`pySuffix` removed. -/
def pyStem (name : String) : String :=
  match lastDotIdx name with
  | none => name
  | some i =>
    if 0 < i ∧ i < name.data.length - 1 then (name.data.take i).asString
    else name

/-- `config.IMAGE_EXTENSIONS` (src/config.py, line 2). -/
def IMAGE_EXTENSIONS : List String :=
  [".png", ".jpg", ".jpeg", ".avif", ".webp", ".svg"]

/-- The directory tree rooted at the images directory: whether the root is
a directory at all, and the relative component paths of all plain files
anywhere below it (what `rglob("*")` plus `is_file()` yields).  Last
component of each entry is the file name. -/
structure DirTree where
  isDir : Bool
  files : List (List String)

/-- Python `str.lower()` over ASCII, at the character-list level. -/
def pyLower (s : String) : String := (s.data.map Char.toLower).asString

/-- The file filter of `get_image_names` (src/file_utils.py, line 33):
`filepath.suffix.lower() in IMAGE_EXTENSIONS`. -/
def isImageFile (f : List String) : Bool :=
  pyLower (pySuffix (f.getLast?.getD "")) ∈ IMAGE_EXTENSIONS

/-- The absolute paths `filepath.absolute().as_posix()` collected into
`image_paths`, modelled at the component-list level: the images root
followed by the file's relative components. -/
def imagePathsList (root : AbsPath) (t : DirTree) : List AbsPath :=
  (t.files.filter isImageFile).map (fun f => root ++ f)

/-- The stems `filepath.stem` collected into `image_names`. -/
def imageNamesList (t : DirTree) : List String :=
  (t.files.filter isImageFile).map (fun f => pyStem (f.getLast?.getD ""))

/-- The two return shapes of `get_image_names`: a bare empty set when the
root is not a directory (`return set()`), otherwise the tuple
`(image_paths, image_names)`. -/
inductive EnumResult where
  | emptySet
  | pair (image_paths : Finset AbsPath) (image_names : Finset String)
deriving DecidableEq

/-- `file_utils.get_image_names` (src/file_utils.py, lines 10-38): warn and
return a single empty set when `images_dir` is not a directory; otherwise
return the set of absolute posix paths and the set of stems of every file
under it whose lower-cased suffix is an allowed image extension. -/
def get_image_names (root : AbsPath) (t : DirTree) : EnumResult :=
  if ¬ t.isDir then EnumResult.emptySet
  else EnumResult.pair (imagePathsList root t).toFinset (imageNamesList t).toFinset

/-- The analysis core of `main.run_analysis` (src/main.py, lines 117-139),
from path validation to the unused-stem computation.  `script_ok` models
`script_dir.is_dir()`; `used` is the reference-key set the script scan
produced.  `none` models the run aborting: `sys.exit(1)` when a directory
check fails, or the uncaught `ValueError` raised by unpacking the bare
`set()` return of `get_image_names` into
`all_image_paths, all_image_names`.  Otherwise the run reaches
`unused_stems = all_image_names.difference(used_image_references)`. -/
def run_analysis (script_ok : Bool) (root : AbsPath) (t : DirTree)
    (used : Finset String) : Option (Finset String) :=
  if ¬ script_ok ∨ ¬ t.isDir then none
  else
    match get_image_names root t with
    | EnumResult.emptySet => none
    | EnumResult.pair _ names => some (names \ used)

/-! ### Script parser (src/script_parser.py, `extract_image_references`)

The three regex matchers of src/config.py are translated to character-level
functions.  `\s` and `\w` are modelled over ASCII (`re` with `re.UNICODE`
also admits non-ASCII word/space characters; the scripts and the claims are
ASCII).  The lazy `.*?` before a closing quote, the greedy optional groups
and the greedy character classes are compiled away: in each pattern the
character class of a quantified part is disjoint from the characters the
following part can start with, so maximal munch plus a deterministic check
is equivalent to the engine's backtracking search.

The two `re.MULTILINE` patterns are scanned over the whole text, not line
by line, because `\s` also matches newlines: `^` restricts match starts to
line starts, but `\s*`, `\s+` and the trailing `(?:\s+.*)?$` of the
show/scene pattern freely span newlines.  In particular a show/scene
match greedily consumes the run of whitespace after its capture and then
the rest of the line holding the next non-whitespace character, so the
immediately following non-blank line is swallowed (`show x\nshow y` yields
only `x`), and `image a\n= "x.png"` is one match.  `finditer` is modelled
as: try each line start left to right, emit the capture on success and
resume after the match's end (matches never end directly after a newline,
so the resume point is never itself a line start). -/

/-- Python `\s` over ASCII. -/
def isWsChar (c : Char) : Bool :=
  c = ' ' ∨ c = '\t' ∨ c = '\n' ∨ c = '\r' ∨ c = '\x0b' ∨ c = '\x0c'

/-- Python `\w` over ASCII: letters, digits, underscore. -/
def isWordChar (c : Char) : Bool := c.isAlphanum ∨ c = '_'

/-- The capture class of `SHOW_SCENE_PATTERN` and `DEFINE_IMAGE_PATTERN`
(src/config.py, lines 8 and 13): word characters, `/` and `-`. -/
def isNameChar (c : Char) : Bool := isWordChar c ∨ c = '/' ∨ c = '-'

/-- Case-insensitive literal match (the patterns are compiled with
`re.IGNORECASE`); returns the remaining input on success.  `kw` is given in
lower case. -/
def stripKeyword (kw : String) (l : List Char) : Option (List Char) :=
  if (l.take kw.length).map Char.toLower = kw.data then some (l.drop kw.length)
  else none

/-- Python `str.strip()` on a character list: whitespace removed from both
ends. -/
def pyStripChars (l : List Char) : List Char :=
  ((l.dropWhile isWsChar).reverse.dropWhile isWsChar).reverse

/-- Python `str.strip()`. -/
def pyStrip (s : String) : String := (pyStripChars s.data).asString

/-- Python `str.replace('\\', '/')`: with a single-character pattern this
is the character-wise substitution. -/
def pyReplaceBackslash (s : String) : String :=
  (s.data.map (fun c => if c = '\\' then '/' else c)).asString

/-- Split a character list on a separator character (all pieces kept, also
empty ones). -/
def splitOnChar (sep : Char) : List Char → List (List Char)
  | [] => [[]]
  | c :: rest =>
    if c = sep then [] :: splitOnChar sep rest
    else
      match splitOnChar sep rest with
      | [] => [[c]]
      | l :: ls => (c :: l) :: ls

/-- `SHOW_SCENE_PATTERN`, i.e. `^\s*(?:show|scene)\s+` then the captured
run over the class of word characters, `/` and `-`, then `(?:\s+.*)?$`
(src/config.py, line 8), tried at one line-start position of the whole
text.  All whitespace classes include newlines.  After the greedy capture,
the optional group is taken whenever whitespace follows: `\s+` greedily
consumes the whitespace run (newlines included) and `.*` the remainder of
the line on which the first following non-whitespace character sits, after
which `$` always holds; without following whitespace the match requires
the end of the text.  Returns the capture and the input after the
match. -/
def matchShowSceneAt (l : List Char) : Option (String × List Char) :=
  let l0 := l.dropWhile isWsChar
  let rest? :=
    match stripKeyword "show" l0 with
    | some r => some r
    | none => stripKeyword "scene" l0
  match rest? with
  | none => none
  | some r =>
    match r with
    | [] => none
    | c :: _ =>
      if ¬ isWsChar c then none
      else
        let r1 := r.dropWhile isWsChar
        let name := r1.takeWhile isNameChar
        let k := r1.dropWhile isNameChar
        if name = [] then none
        else
          match k with
          | [] => some (name.asString, [])
          | c2 :: _ =>
            if isWsChar c2 then
              let m := k.dropWhile isWsChar
              some (name.asString, m.dropWhile (fun c => c ≠ '\n'))
            else none

/-- After an opening quote: the lazy `.*?` followed by `"`; succeeds with
the capture and the input after the closing quote iff a `"` occurs before
any newline. -/
def matchQuoted (l : List Char) : Option (List Char × List Char) :=
  let body := l.takeWhile (fun c => c ≠ '"' ∧ c ≠ '\n')
  match l.drop body.length with
  | '"' :: rest => some (body, rest)
  | _ => none

/-- `DEFINE_IMAGE_PATTERN`, i.e. `^\s*image\s+` then the same captured
class as in `matchShowSceneAt`, then `\s*=\s*".*?"` (src/config.py, line
13), tried at one line-start position of the whole text; the `\s*` runs
span newlines.  Returns the capture (the defined name) and the input after
the closing quote. -/
def matchDefineAt (l : List Char) : Option (String × List Char) :=
  let l0 := l.dropWhile isWsChar
  match stripKeyword "image" l0 with
  | none => none
  | some r =>
    match r with
    | [] => none
    | c :: _ =>
      if ¬ isWsChar c then none
      else
        let r1 := r.dropWhile isWsChar
        let name := r1.takeWhile isNameChar
        let r2 := r1.dropWhile isNameChar
        if name = [] then none
        else
          match r2.dropWhile isWsChar with
          | '=' :: r4 =>
            match r4.dropWhile isWsChar with
            | '"' :: r6 =>
              match matchQuoted r6 with
              | some (_, after) => some (name.asString, after)
              | none => none
            | _ => none
          | _ => none

/-- `finditer` for an `^`-anchored `re.MULTILINE` pattern: positions are
tried left to right, a match is attempted only at line starts (position 0
or right after a newline), and scanning resumes after a match's end.
`atStart` says whether the current position is a line start; the resume
after a successful match passes `false` because neither pattern's match
can end directly after a newline.  Fuel-driven; both the failure and the
success branch consume at least one character, so fuel `length + 1` never
runs out. -/
def scanMultilineAux (matchAt : List Char → Option (String × List Char)) :
    Nat → Bool → List Char → List String
  | 0, _, _ => []
  | Nat.succ n, atStart, l =>
    match l with
    | [] => []
    | c :: rest =>
      match (if atStart then matchAt l else none) with
      | some (cap, after) => cap :: scanMultilineAux matchAt n false after
      | none => scanMultilineAux matchAt n (c = '\n') rest

/-- All captures of the show/scene pattern over a text
(`show_scene_re.finditer(content)`). -/
def showSceneCaptures (content : List Char) : List String :=
  scanMultilineAux matchShowSceneAt (content.length + 1) true content

/-- All captures of the image-definition pattern over a text
(`define_image_re.finditer(content)`). -/
def defineCaptures (content : List Char) : List String :=
  scanMultilineAux matchDefineAt (content.length + 1) true content

/-- `IMAGEBUTTON_PATTERN = r'imagebutton\s+(?:auto\s+)?(?:hover\s*)?"(.*?)"'`
(src/config.py, line 17) tried at one position: the literal `imagebutton`,
at least one whitespace, optionally `auto` plus whitespace, optionally
`hover` plus optional whitespace, then a quoted capture.  Returns the
capture and the input after the match. -/
def matchImagebuttonAt (l : List Char) : Option (List Char × List Char) :=
  match stripKeyword "imagebutton" l with
  | none => none
  | some r =>
    match r with
    | [] => none
    | c :: _ =>
      if ¬ isWsChar c then none
      else
        let r1 := r.dropWhile isWsChar
        let r2 :=
          match stripKeyword "auto" r1 with
          | some ra =>
            match ra with
            | c2 :: _ => if isWsChar c2 then ra.dropWhile isWsChar else r1
            | [] => r1
          | none => r1
        let r3 :=
          match stripKeyword "hover" r2 with
          | some rh => rh.dropWhile isWsChar
          | none => r2
        match r3 with
        | '"' :: r4 => matchQuoted r4
        | _ => none

/-- `finditer` of the imagebutton pattern: leftmost matches, scanning
resumes after each match's end.  Fuel-driven; with fuel at least the input
length every position is visited, since a match always consumes at least
one character. -/
def scanImagebuttonAux : Nat → List Char → List (List Char)
  | 0, _ => []
  | Nat.succ n, l =>
    match l with
    | [] => []
    | c :: rest =>
      match matchImagebuttonAt (c :: rest) with
      | some (cap, after) => cap :: scanImagebuttonAux n after
      | none => scanImagebuttonAux n rest

/-- All group-1 captures of the imagebutton pattern over a text. -/
def scanImagebutton (l : List Char) : List (List Char) :=
  scanImagebuttonAux l.length l

/-- `re.sub(r'%.', '', s)`: delete every leftmost non-overlapping
occurrence of a `%` followed by one non-newline character (`.` does not
match a newline); a `%` with no such follower is kept and scanning resumes
after it. -/
def subPercentChars : List Char → List Char
  | [] => []
  | c :: rest =>
    if c = '%' then
      match rest with
      | [] => ['%']
      | c2 :: rest2 =>
        if c2 = '\n' then '%' :: c2 :: subPercentChars rest2
        else subPercentChars rest2
    else c :: subPercentChars rest

/-- A `pathlib.PurePosixPath`: absolute flag plus components (empty and
`"."` components are dropped when parsing). -/
structure PyPath where
  isAbs : Bool
  comps : List String
deriving DecidableEq

/-- `pathlib.Path(s)` under POSIX rules. -/
def pathFromString (s : String) : PyPath :=
  ⟨(match s.data with | c :: _ => c = '/' | [] => false),
   ((splitOnChar '/' s.data).map List.asString).filter
     (fun c => c ≠ "" ∧ c ≠ ".")⟩

/-- `PurePath.name`: the last component, `""` for the root or the empty
path. -/
def pyName (p : PyPath) : String := p.comps.getLast?.getD ""

/-- `PurePath.with_suffix('')`: raises `ValueError` (here `none`) when the
name is empty; otherwise replaces the name by its stem. -/
def pyWithSuffixEmpty (p : PyPath) : Option PyPath :=
  let n := pyName p
  if n = "" then none
  else some ⟨p.isAbs, p.comps.dropLast ++ [pyStem n]⟩

/-- Join strings with `/` separators. -/
def joinWithSlash : List String → String
  | [] => ""
  | [a] => a
  | a :: rest => a ++ "/" ++ joinWithSlash rest

/-- `PurePosixPath.as_posix()`: components joined by `/`; the empty
relative path renders as `"."`. -/
def pyAsPosix (p : PyPath) : String :=
  if p.isAbs then "/" ++ joinWithSlash p.comps
  else if p.comps = [] then "." else joinWithSlash p.comps

/-- Outcome of processing one imagebutton capture (src/script_parser.py,
lines 52-68): a recorded key, a silent skip (the falsy-string branch), or a
`ValueError` escaping to the per-file `except` handler. -/
inductive CapOutcome where
  | key (k : String)
  | skip
  | err
deriving DecidableEq

/-- The body of the imagebutton loop for one capture: strip the raw
capture, delete `%.` placeholders, strip again, drop the extension via
`Path(...).with_suffix('').as_posix()`, and record the result when it is a
non-empty string.  `with_suffix` raises when the stripped path has an empty
name (e.g. the capture reduced to the empty string). -/
def processCapture (cap : String) : CapOutcome :=
  let path_pattern := pyStrip cap
  let base_path := pyStrip (subPercentChars path_pattern.data).asString
  match pyWithSuffixEmpty (pathFromString base_path) with
  | none => CapOutcome.err
  | some p =>
    let base_path_no_ext := pyAsPosix p
    if base_path_no_ext = "" then CapOutcome.skip
    else CapOutcome.key base_path_no_ext

/-- The imagebutton loop over the captures of one file: keys are collected
until a capture raises, which aborts the remaining captures of that file
(the exception is caught by the per-file handler). -/
def imagebuttonKeys : List String → List String
  | [] => []
  | c :: rest =>
    match processCapture c with
    | CapOutcome.key k => k :: imagebuttonKeys rest
    | CapOutcome.skip => imagebuttonKeys rest
    | CapOutcome.err => []

/-- The per-file body of `script_parser.extract_image_references`
(src/script_parser.py, lines 36-68) on one file's text: the show/scene
captures and the image-definition captures, each stripped and with
backslashes replaced by `/`, plus the processed imagebutton captures, all
added to one set. -/
def extract_refs_text (content : String) : Finset String :=
  let showRefs := (showSceneCaptures content.data).map
    (fun s => pyReplaceBackslash (pyStrip s))
  let defRefs := (defineCaptures content.data).map
    (fun s => pyReplaceBackslash (pyStrip s))
  let ibKeys := imagebuttonKeys ((scanImagebutton content.data).map
    (fun c => c.asString))
  (showRefs ++ defRefs ++ ibKeys).toFinset

/-! ### Helper lemmas about `perform_safe_deletion` -/

/-- The safety-check condition of `file_utils.perform_safe_deletion` as a
boolean predicate: the path is refused when the base is not among its
parents and is not its direct parent either. -/
def safetySkip (base p : AbsPath) : Bool :=
  !(inParents base p) && decide (pathParent p ≠ base)

/-- A path the deletion loop actually unlinks: it passes the safety check,
its file exists, and `unlink` does not raise. -/
def okDelete (base : AbsPath) (σ : FS) (p : AbsPath) : Bool :=
  !(safetySkip base p) && decide (p ∈ σ.live) && !(decide (p ∈ σ.failing))

/-- A path the deletion loop counts in `error_count`: refused by the
safety check, or existing but failing to unlink. -/
def errorSkip (base : AbsPath) (σ : FS) (p : AbsPath) : Bool :=
  safetySkip base p || (decide (p ∈ σ.live) && decide (p ∈ σ.failing))

theorem delStep_safety (base : AbsPath) (d e : Nat) (σ : FS) (p : AbsPath)
    (h : ¬ inParents base p ∧ pathParent p ≠ base) :
    delStep base ((d, e), σ) p = ((d, e + 1), σ) := by
  simp [delStep, h]

theorem delStep_fail (base : AbsPath) (d e : Nat) (σ : FS) (p : AbsPath)
    (h : ¬ (¬ inParents base p ∧ pathParent p ≠ base)) (hl : p ∈ σ.live)
    (hf : p ∈ σ.failing) :
    delStep base ((d, e), σ) p = ((d, e + 1), σ) := by
  unfold delStep
  rw [if_neg h, if_pos hl, if_pos hf]

theorem delStep_del (base : AbsPath) (d e : Nat) (σ : FS) (p : AbsPath)
    (h : ¬ (¬ inParents base p ∧ pathParent p ≠ base)) (hl : p ∈ σ.live)
    (hf : p ∉ σ.failing) :
    delStep base ((d, e), σ) p = ((d + 1, e), unlinkFS σ p) := by
  unfold delStep
  rw [if_neg h, if_pos hl, if_neg hf]

theorem delStep_gone (base : AbsPath) (d e : Nat) (σ : FS) (p : AbsPath)
    (h : ¬ (¬ inParents base p ∧ pathParent p ≠ base)) (hl : p ∉ σ.live) :
    delStep base ((d, e), σ) p = ((d, e), σ) := by
  unfold delStep
  rw [if_neg h, if_neg hl]

/-- A deletion step from accumulator `(d, e)` is the step from `(0, 0)`
with the counters shifted. -/
theorem delStep_shift (base : AbsPath) (d e : Nat) (σ : FS) (p : AbsPath) :
    delStep base ((d, e), σ) p =
      ((d + (delStep base ((0, 0), σ) p).1.1,
        e + (delStep base ((0, 0), σ) p).1.2),
       (delStep base ((0, 0), σ) p).2) := by
  unfold delStep
  split_ifs <;> simp

/-- The deletion fold from accumulator `(d, e)` is the fold from `(0, 0)`
with the counters shifted. -/
theorem foldl_delStep_shift (base : AbsPath) (files : List AbsPath)
    (d e : Nat) (σ : FS) :
    files.foldl (delStep base) ((d, e), σ) =
      ((d + (files.foldl (delStep base) ((0, 0), σ)).1.1,
        e + (files.foldl (delStep base) ((0, 0), σ)).1.2),
       (files.foldl (delStep base) ((0, 0), σ)).2) := by
  induction files generalizing d e σ with
  | nil => simp
  | cons p rest ih =>
    simp only [List.foldl_cons]
    rw [delStep_shift base d e σ p]
    rcases h : delStep base ((0, 0), σ) p with ⟨⟨a, b⟩, σ₁⟩
    rw [ih (d + a) (e + b) σ₁, ih a b σ₁]
    simp [Nat.add_assoc]

/-- Unfolding one path of the deletion batch: the counters of the head
step plus the outcome of the remaining batch run on the stepped
filesystem. -/
theorem perform_cons (base p : AbsPath) (rest : List AbsPath) (σ : FS) :
    perform_safe_deletion (p :: rest) base σ =
      (((delStep base ((0, 0), σ) p).1.1 +
          (perform_safe_deletion rest base (delStep base ((0, 0), σ) p).2).1.1,
        (delStep base ((0, 0), σ) p).1.2 +
          (perform_safe_deletion rest base (delStep base ((0, 0), σ) p).2).1.2),
       (perform_safe_deletion rest base (delStep base ((0, 0), σ) p).2).2) := by
  have hsh := foldl_delStep_shift base rest
    (delStep base ((0, 0), σ) p).1.1 (delStep base ((0, 0), σ) p).1.2
    (delStep base ((0, 0), σ) p).2
  unfold perform_safe_deletion
  rw [List.foldl_cons]
  have heta : delStep base ((0, 0), σ) p =
      (((delStep base ((0, 0), σ) p).1.1, (delStep base ((0, 0), σ) p).1.2),
       (delStep base ((0, 0), σ) p).2) := rfl
  rw [heta] at hsh ⊢
  exact hsh

/-- The deletion loop never touches the `failing` component, and a file
whose unlink fails survives the whole batch. -/
theorem perform_preserves_failing_live (base : AbsPath)
    (files : List AbsPath) (σ : FS) (p : AbsPath)
    (hl : p ∈ σ.live) (hf : p ∈ σ.failing) :
    p ∈ (perform_safe_deletion files base σ).2.live
    ∧ (perform_safe_deletion files base σ).2.failing = σ.failing := by
  induction files generalizing σ with
  | nil => exact ⟨hl, rfl⟩
  | cons q rest ih =>
    have step :
        (delStep base ((0, 0), σ) q).2.failing = σ.failing
        ∧ p ∈ (delStep base ((0, 0), σ) q).2.live := by
      by_cases hss : ¬ inParents base q ∧ pathParent q ≠ base
      · rw [delStep_safety base 0 0 σ q hss]; exact ⟨rfl, hl⟩
      · by_cases hql : q ∈ σ.live
        · by_cases hqf : q ∈ σ.failing
          · rw [delStep_fail base 0 0 σ q hss hql hqf]; exact ⟨rfl, hl⟩
          · rw [delStep_del base 0 0 σ q hss hql hqf]
            refine ⟨rfl, ?_⟩
            have hpq : p ≠ q := fun h => hqf (h ▸ hf)
            simp [unlinkFS, List.mem_filter, hl, hpq]
        · rw [delStep_gone base 0 0 σ q hss hql]; exact ⟨rfl, hl⟩
    have hsh := foldl_delStep_shift base rest
      (delStep base ((0, 0), σ) q).1.1 (delStep base ((0, 0), σ) q).1.2
      (delStep base ((0, 0), σ) q).2
    have hperf : perform_safe_deletion (q :: rest) base σ =
        ((((delStep base ((0, 0), σ) q).1.1 +
            (perform_safe_deletion rest base (delStep base ((0, 0), σ) q).2).1.1,
           (delStep base ((0, 0), σ) q).1.2 +
            (perform_safe_deletion rest base (delStep base ((0, 0), σ) q).2).1.2)),
         (perform_safe_deletion rest base (delStep base ((0, 0), σ) q).2).2) := by
      unfold perform_safe_deletion at *
      rw [List.foldl_cons]
      have : delStep base ((0, 0), σ) q =
          (((delStep base ((0, 0), σ) q).1.1, (delStep base ((0, 0), σ) q).1.2),
           (delStep base ((0, 0), σ) q).2) := rfl
      rw [this] at hsh ⊢
      exact hsh
    have ihq := ih (delStep base ((0, 0), σ) q).2 step.2
      (by rw [step.1]; exact hf)
    rw [hperf]
    refine ⟨ihq.1, ?_⟩
    rw [ihq.2, step.1]

theorem safetySkip_eq_true {base p : AbsPath}
    (h : ¬ inParents base p ∧ pathParent p ≠ base) :
    safetySkip base p = true := by
  simp only [safetySkip, Bool.and_eq_true, Bool.not_eq_true', decide_eq_true_eq]
  exact ⟨Bool.not_eq_true _ ▸ h.1, h.2⟩

theorem safetySkip_eq_false {base p : AbsPath}
    (h : ¬ (¬ inParents base p ∧ pathParent p ≠ base)) :
    safetySkip base p = false := by
  by_cases h1 : inParents base p
  · simp [safetySkip, h1]
  · by_cases h2 : pathParent p = base
    · simp [safetySkip, h2]
    · exact absurd ⟨h1, h2⟩ h

/-- Unlinking `p` does not change whether another path `q` exists or
fails. -/
theorem okDelete_unlink {base : AbsPath} {σ : FS} {p q : AbsPath}
    (hqp : q ≠ p) :
    okDelete base (unlinkFS σ p) q = okDelete base σ q := by
  simp [okDelete, unlinkFS, List.mem_filter, hqp]

theorem errorSkip_unlink {base : AbsPath} {σ : FS} {p q : AbsPath}
    (hqp : q ≠ p) :
    errorSkip base (unlinkFS σ p) q = errorSkip base σ q := by
  simp [errorSkip, unlinkFS, List.mem_filter, hqp]

/-- Full characterisation of `file_utils.perform_safe_deletion` on a
duplicate-free batch: it returns the pair whose first component counts
exactly the paths that pass the safety check, exist and unlink cleanly,
and whose second component counts exactly the safety-refused and
unlink-failing paths; the final filesystem is the initial one minus
exactly the successfully deleted paths. -/
theorem perform_safe_deletion_spec (base : AbsPath) (files : List AbsPath) :
    ∀ σ : FS, files.Nodup →
      perform_safe_deletion files base σ =
        (((files.filter (fun p => okDelete base σ p)).length,
          (files.filter (fun p => errorSkip base σ p)).length),
         ⟨σ.live.filter (fun q => !(decide (q ∈ files) && okDelete base σ q)),
          σ.failing⟩) := by
  induction files with
  | nil =>
    intro σ _
    cases σ with
    | mk live failing => simp [perform_safe_deletion]
  | cons p rest ih =>
    intro σ hnd
    rw [List.nodup_cons] at hnd
    obtain ⟨hp, hr⟩ := hnd
    rw [perform_cons]
    by_cases hss : ¬ inParents base p ∧ pathParent p ≠ base
    · -- safety-refused path: one more error, filesystem untouched
      rw [delStep_safety base 0 0 σ p hss, ih σ hr]
      have hok : okDelete base σ p = false := by
        simp [okDelete, safetySkip_eq_true hss]
      have herr : errorSkip base σ p = true := by
        simp [errorSkip, safetySkip_eq_true hss]
      refine congrArg₂ Prod.mk ?_ ?_
      · simp [List.filter_cons, hok, herr, Nat.add_comm]
      · refine congrArg₂ FS.mk (List.filter_congr fun q hq => ?_) rfl
        by_cases hqp : q = p
        · subst hqp; simp [hok, hp]
        · simp [List.mem_cons, hqp]
    · have hssf := safetySkip_eq_false hss
      by_cases hl : p ∈ σ.live
      · by_cases hf : p ∈ σ.failing
        · -- unlink raises: one more error, filesystem untouched
          rw [delStep_fail base 0 0 σ p hss hl hf, ih σ hr]
          have hok : okDelete base σ p = false := by
            simp [okDelete, hf]
          have herr : errorSkip base σ p = true := by
            simp [errorSkip, hl, hf]
          refine congrArg₂ Prod.mk ?_ ?_
          · simp [List.filter_cons, hok, herr, Nat.add_comm]
          · refine congrArg₂ FS.mk (List.filter_congr fun q hq => ?_) rfl
            by_cases hqp : q = p
            · subst hqp; simp [hok, hp]
            · simp [List.mem_cons, hqp]
        · -- actual deletion: one more deleted, p removed from the live set
          rw [delStep_del base 0 0 σ p hss hl hf, ih (unlinkFS σ p) hr]
          have hok : okDelete base σ p = true := by
            simp [okDelete, hssf, hl, hf]
          have herr : errorSkip base σ p = false := by
            simp [errorSkip, hssf, hf]
          have hrest : ∀ q ∈ rest, q ≠ p := fun q hq h => hp (h ▸ hq)
          rw [List.filter_congr fun q hq => okDelete_unlink (hrest q hq),
            List.filter_congr fun q hq => errorSkip_unlink (hrest q hq)]
          refine congrArg₂ Prod.mk ?_ ?_
          · simp [List.filter_cons, hok, herr, Nat.add_comm]
          · refine congrArg₂ FS.mk ?_ rfl
            show ((unlinkFS σ p).live.filter _ : List AbsPath) = _
            rw [show (unlinkFS σ p).live = σ.live.filter (fun q => decide (q ≠ p))
              from rfl, List.filter_filter]
            refine List.filter_congr fun q hq => ?_
            by_cases hqp : q = p
            · subst hqp; simp [hok]
            · simp [List.mem_cons, hqp, okDelete_unlink hqp]
      · -- file already gone: neither counter moves
        rw [delStep_gone base 0 0 σ p hss hl, ih σ hr]
        have hok : okDelete base σ p = false := by
          simp [okDelete, hl]
        have herr : errorSkip base σ p = false := by
          simp [errorSkip, hssf, hl]
        refine congrArg₂ Prod.mk ?_ ?_
        · simp [List.filter_cons, hok, herr]
        · refine congrArg₂ FS.mk (List.filter_congr fun q hq => ?_) rfl
          by_cases hqp : q = p
          · subst hqp; simp [hok, hp]
          · simp [List.mem_cons, hqp]

/-! ### Helper lemmas about the placeholder substitution -/

theorem subPercentChars_cons_ne (c : Char) (l : List Char) (hc : c ≠ '%') :
    subPercentChars (c :: l) = c :: subPercentChars l := by
  cases l with
  | nil => rw [subPercentChars.eq_2, if_neg hc]
  | cons c1 rest => rw [subPercentChars.eq_3, if_neg hc]

theorem subPercentChars_percent (ch : Char) (l : List Char) (h : ch ≠ '\n') :
    subPercentChars ('%' :: ch :: l) = subPercentChars l := by
  rw [subPercentChars.eq_3, if_pos rfl, if_neg h]

/-! ### The claims -/

/-- Claim C1 (code bug): Safe Deletion is required never to unlink a file
resolving outside the base root, and `file_utils.perform_safe_deletion`
indeed refuses such a path, counts an error and leaves the filesystem
unchanged; but the deletion the review GUI actually invokes is the
shadowing `gui_viewer.perform_safe_deletion`, which performs no boundary
check at all: at the concrete input below it unlinks `/home/user/secret.png`
although the base root is `/proj/game/images`, and reports it deleted. -/
theorem C1_gui_deletes_outside_base :
    gui_perform_safe_deletion [["home", "user", "secret.png"]]
        ["proj", "game", "images"] ⟨[["home", "user", "secret.png"]], []⟩ =
      (GuiReturn.triple 1 0 [["home", "user", "secret.png"]], ⟨[], []⟩)
    ∧ perform_safe_deletion [["home", "user", "secret.png"]]
        ["proj", "game", "images"] ⟨[["home", "user", "secret.png"]], []⟩ =
      ((0, 1), ⟨[["home", "user", "secret.png"]], []⟩) := by
  decide

/-- Claim C2 (counterexample): the GUI's deletion returns the triple
`(1, 0, [p])` claiming `p` was deleted although `p`'s unlink raised and
the final filesystem still contains `p` — the third component is not the
subset of paths actually deleted. -/
theorem C2_counterexample_gui_triple :
    gui_perform_safe_deletion [["base", "a.png"]] ["base"]
        ⟨[["base", "a.png"]], [["base", "a.png"]]⟩ =
      (GuiReturn.triple 1 0 [["base", "a.png"]],
       ⟨[["base", "a.png"]], [["base", "a.png"]]⟩) := by
  decide

/-- Claim C2 (amended): `file_utils.perform_safe_deletion` returns only
the pair `(deleted count, error/skip count)` — no set of deleted paths is
part of its return value.  The counts are faithful: on a duplicate-free
batch the first component counts exactly the input paths that pass the
safety check, exist and unlink cleanly, the second counts exactly the
safety-refused and unlink-failing paths, and precisely the former are
removed from the filesystem. -/
theorem C2_amended_pair_counts (files : List AbsPath) (base : AbsPath)
    (σ : FS) (hnd : files.Nodup) :
    perform_safe_deletion files base σ =
      (((files.filter (fun p => okDelete base σ p)).length,
        (files.filter (fun p => errorSkip base σ p)).length),
       ⟨σ.live.filter (fun q => !(decide (q ∈ files) && okDelete base σ q)),
        σ.failing⟩) :=
  perform_safe_deletion_spec base files σ hnd

/-- Witness for C2's amended theorem at a concrete input: one deletable
file, one already-gone file and one file outside the base root give the
pair `(1, 1)` and remove exactly the deleted path. -/
theorem C2_amended_witness :
    perform_safe_deletion [["b", "x.png"], ["b", "y.png"], ["c", "z.png"]]
        ["b"] ⟨[["b", "x.png"], ["c", "z.png"]], []⟩ =
      ((1, 1), ⟨[["c", "z.png"]], []⟩) := by
  have h := C2_amended_pair_counts
    [["b", "x.png"], ["b", "y.png"], ["c", "z.png"]] ["b"]
    ⟨[["b", "x.png"], ["c", "z.png"]], []⟩ (by decide)
  rw [h]
  decide

/-- Claim C3 (confirmed): after a successful scan the analysis computes
the unused set as exactly the set difference of the enumerated image keys
and the reference keys, and every key in that difference is the stem of at
least one enumerated image file. -/
theorem C3_reconciler_difference (root : AbsPath) (t : DirTree)
    (used : Finset String) (h : t.isDir = true) :
    run_analysis true root t used = some ((imageNamesList t).toFinset \ used)
    ∧ ∀ k ∈ (imageNamesList t).toFinset \ used,
        ∃ f ∈ t.files, isImageFile f = true ∧ pyStem (f.getLast?.getD "") = k := by
  constructor
  · simp [run_analysis, get_image_names, h]
  · intro k hk
    have hk1 := (Finset.mem_sdiff.mp hk).1
    rw [List.mem_toFinset] at hk1
    obtain ⟨f, hf, hfk⟩ := List.mem_map.mp hk1
    have hf' := List.mem_filter.mp hf
    exact ⟨f, hf'.1, hf'.2, hfk⟩

/-- Witness for C3 at a concrete input. -/
theorem C3_reconciler_witness :
    run_analysis true ["r"] ⟨true, [["a.png"], ["n.txt"]]⟩ {"zz"} =
      some ((imageNamesList ⟨true, [["a.png"], ["n.txt"]]⟩).toFinset \ {"zz"}) :=
  (C3_reconciler_difference ["r"] ⟨true, [["a.png"], ["n.txt"]]⟩ {"zz"} rfl).1

/-- Claim C4 (counterexample): two qualifying files in different
subdirectories share the stem `logo`, so the enumerator's key set has size
1 while 2 files qualify under the case-insensitive extension filter — the
key-set size does not equal the qualifying-file count. -/
theorem C4_counterexample_stem_collision :
    get_image_names ["r"] ⟨true, [["a", "logo.png"], ["b", "logo.png"]]⟩ =
      EnumResult.pair
        (imagePathsList ["r"] ⟨true, [["a", "logo.png"], ["b", "logo.png"]]⟩).toFinset
        (imageNamesList ⟨true, [["a", "logo.png"], ["b", "logo.png"]]⟩).toFinset
    ∧ (imageNamesList ⟨true, [["a", "logo.png"], ["b", "logo.png"]]⟩).toFinset.card = 1
    ∧ ((⟨true, [["a", "logo.png"], ["b", "logo.png"]]⟩ : DirTree).files.filter
        isImageFile).length = 2 := by
  decide

/-- Claim C4 (amended): the enumerator's absolute-path set size equals the
count of qualifying files; the key (stem) set can only be at most that
large, because distinct files may share a stem; and every key comes from a
qualifying file, so files with a non-allow-list extension or no extension
never contribute. -/
theorem C4_amended_sizes (root : AbsPath) (t : DirTree)
    (hdir : t.isDir = true) (hnd : t.files.Nodup) :
    get_image_names root t =
      EnumResult.pair (imagePathsList root t).toFinset (imageNamesList t).toFinset
    ∧ (imagePathsList root t).toFinset.card = (t.files.filter isImageFile).length
    ∧ (imageNamesList t).toFinset.card ≤ (t.files.filter isImageFile).length
    ∧ ∀ k ∈ (imageNamesList t).toFinset,
        ∃ f ∈ t.files, isImageFile f = true ∧ pyStem (f.getLast?.getD "") = k := by
  refine ⟨by simp [get_image_names, hdir], ?_, ?_, ?_⟩
  · have hinj : Function.Injective (fun f : List String => root ++ f) :=
      fun a b h => List.append_cancel_left h
    have hnodup : (imagePathsList root t).Nodup :=
      ((hnd.filter isImageFile).map hinj)
    rw [List.toFinset_card_of_nodup hnodup, imagePathsList, List.length_map]
  · calc (imageNamesList t).toFinset.card ≤ (imageNamesList t).length :=
          List.toFinset_card_le _
      _ = (t.files.filter isImageFile).length := by
          rw [imageNamesList, List.length_map]
  · intro k hk
    rw [List.mem_toFinset] at hk
    obtain ⟨f, hf, hfk⟩ := List.mem_map.mp hk
    have hf' := List.mem_filter.mp hf
    exact ⟨f, hf'.1, hf'.2, hfk⟩

/-- Witness for C4's amended theorem at a concrete input. -/
theorem C4_amended_witness :
    (imagePathsList ["r"] ⟨true, [["a.png"], ["b.txt"]]⟩).toFinset.card =
      ((⟨true, [["a.png"], ["b.txt"]]⟩ : DirTree).files.filter
        isImageFile).length :=
  (C4_amended_sizes ["r"] ⟨true, [["a.png"], ["b.txt"]]⟩ rfl (by decide)).2.1

/-- Placeholder stripping: a `%` followed by a non-newline character is
deleted, anything before it without a `%` passes through unchanged. -/
theorem subPercent_strips (post : List Char) (ch : Char) (h2 : ch ≠ '\n') :
    ∀ pre : List Char, '%' ∉ pre →
      subPercentChars (pre ++ '%' :: ch :: post) = pre ++ subPercentChars post := by
  intro pre
  induction pre with
  | nil => intro _; exact subPercentChars_percent ch post h2
  | cons c cs ih =>
    intro h1
    have hc : c ≠ '%' := fun h => h1 (List.mem_cons.mpr (Or.inl h.symm))
    have h1' : '%' ∉ cs := fun h => h1 (List.mem_cons_of_mem c h)
    rw [List.cons_append, subPercentChars_cons_ne c _ hc, ih h1',
      List.cons_append]

/-- Claim C5 (counterexample): the imagebutton matcher does not normalise
backslashes.  The capture `dir\img_%s.png` is recorded as the key
`dir\img_` — `as_posix` on a POSIX path leaves a backslash alone — and the
claimed normalised key `dir/img_` is absent. -/
theorem C5_counterexample_backslash_kept :
    extract_refs_text "imagebutton \"dir\\img_%s.png\"" = {"dir\\img_"}
    ∧ "dir/img_" ∉ extract_refs_text "imagebutton \"dir\\img_%s.png\"" := by
  decide

/-- Claim C5 (amended): the imagebutton matcher strips `%`-placeholder
pairs and the file extension; backslashes in the capture are preserved,
not normalised; a capture that strips to the empty string records no key
(the `with_suffix` call raises a `ValueError` that the per-file handler
catches, which also drops the file's remaining imagebutton captures, as
the last conjunct shows); and the spec's concrete example yields
`images/button_`. -/
theorem C5_amended_imagebutton (pre post : List Char) (ch : Char)
    (h1 : '%' ∉ pre) (h2 : ch ≠ '\n') :
    subPercentChars (pre ++ '%' :: ch :: post) = pre ++ subPercentChars post
    ∧ extract_refs_text
        "imagebutton auto \"images/button_%s.png\" action NullAction()" =
        {"images/button_"}
    ∧ processCapture "images\\button_%s.png" =
        CapOutcome.key "images\\button_"
    ∧ processCapture "%s" = CapOutcome.err
    ∧ extract_refs_text "imagebutton \"%s\" imagebutton \"ok.png\"" = ∅ :=
  ⟨subPercent_strips post ch h2 pre h1, by decide, by decide, by decide,
   by decide⟩

/-- Witness for C5's amended theorem at a concrete input:
`a%sb` loses its placeholder. -/
theorem C5_amended_witness :
    subPercentChars ['a', '%', 's', 'b'] = ['a', 'b'] := by
  have h := (C5_amended_imagebutton ['a'] ['b'] 's' (by decide) (by decide)).1
  exact h.trans (by decide)

/-- Claim C6 (counterexample): the claim is quantified over every script
text, but a text need not yield a key for each of its lines: in
`show x\nshow eileen happy` the first match's greedy trailing
`(?:\s+.*)?$` consumes the newline and the whole next line, so the line
`show eileen happy` contributes nothing — only `x` is recorded and
`eileen` is absent. -/
theorem C6_counterexample_swallowed_line :
    extract_refs_text "show x\nshow eileen happy" = {"x"}
    ∧ "eileen" ∉ extract_refs_text "show x\nshow eileen happy" := by
  decide

/-- Claim C6 (amended): for a script text consisting of that single line,
`show eileen happy` yields exactly the key `eileen` (the `happy` attribute
is discarded), `scene bg/room` yields exactly `bg/room`, and
`image logo = "images/logo.png"` yields exactly the defined name `logo`;
the guarantee is per matched occurrence, not per line of an arbitrary
text, since a preceding show/scene match can swallow a following line and
an image definition may itself span lines (last conjunct: the `\s*=\s*`
of the definition pattern crosses a newline). -/
theorem C6_amended_single_line_examples :
    extract_refs_text "show eileen happy" = {"eileen"}
    ∧ extract_refs_text "scene bg/room" = {"bg/room"}
    ∧ extract_refs_text "image logo = \"images/logo.png\"" = {"logo"}
    ∧ extract_refs_text "image a\n= \"x.png\"" = {"a"} := by
  decide

/-- Claim C7 (code bug): for a non-directory images root the enumerator
does return a bare empty set (with a warning), but the overall run does
not continue with an empty image set: `run_analysis` validates the
directories and exits, and had the enumerator been reached its single-set
return could not be unpacked into `all_image_paths, all_image_names`
anyway — the modelled run aborts (`none`). -/
theorem C7_missing_root_aborts_run :
    get_image_names ["proj", "game", "images"] ⟨false, []⟩ =
      EnumResult.emptySet
    ∧ run_analysis true ["proj", "game", "images"] ⟨false, []⟩ {"logo"} =
        none := by
  decide

/-- Claim C8 (counterexample): a path whose file no longer exists is not
counted at all — the error/skip counter of the returned pair stays `0`, so
the claim that such a path is "counted as a skip" fails. -/
theorem C8_counterexample_skip_uncounted :
    perform_safe_deletion [["img", "gone.png"]] ["img"] ⟨[], []⟩ =
      ((0, 0), ⟨[], []⟩) := by
  decide

/-- Claim C8 (amended): a path under the base whose file no longer exists
is skipped silently: no unlink happens, neither counter moves and the
filesystem is unchanged; consequently deleting a path and invoking the
operation again on it yields that silent skip on the second call. -/
theorem C8_amended_second_call_skips (σ : FS) (base p : AbsPath)
    (hu : inParents base p = true) :
    (p ∉ σ.live → perform_safe_deletion [p] base σ = ((0, 0), σ))
    ∧ (p ∈ σ.live → p ∉ σ.failing →
        perform_safe_deletion [p] base
            ((perform_safe_deletion [p] base σ).2) =
          ((0, 0), (perform_safe_deletion [p] base σ).2)) := by
  have hss : ¬ (¬ inParents base p ∧ pathParent p ≠ base) := fun h => h.1 hu
  have hsingle : ∀ τ : FS,
      perform_safe_deletion [p] base τ = delStep base ((0, 0), τ) p :=
    fun τ => rfl
  constructor
  · intro hl
    rw [hsingle σ, delStep_gone base 0 0 σ p hss hl]
  · intro hl hf
    have h1 : perform_safe_deletion [p] base σ = ((0 + 1, 0), unlinkFS σ p) := by
      rw [hsingle σ, delStep_del base 0 0 σ p hss hl hf]
    have h2 : (perform_safe_deletion [p] base σ).2 = unlinkFS σ p := by
      rw [h1]
    have hgone : p ∉ (unlinkFS σ p).live := by
      simp [unlinkFS, List.mem_filter]
    rw [h2, hsingle (unlinkFS σ p),
      delStep_gone base 0 0 (unlinkFS σ p) p hss hgone]

/-- Witness for C8's amended theorem at a concrete input. -/
theorem C8_amended_witness :
    perform_safe_deletion [["img", "a.png"]] ["img"]
        ((perform_safe_deletion [["img", "a.png"]] ["img"]
            ⟨[["img", "a.png"]], []⟩).2) =
      ((0, 0),
       (perform_safe_deletion [["img", "a.png"]] ["img"]
          ⟨[["img", "a.png"]], []⟩).2) :=
  (C8_amended_second_call_skips ⟨[["img", "a.png"]], []⟩ ["img"]
      ["img", "a.png"] (by decide)).2 (by decide) (by decide)

/-- Claim C9 (confirmed): a path whose unlink raises contributes exactly
one error and leaves the filesystem as it was, and the batch continues:
the paths after it are processed exactly as they would have been, so the
whole run returns the combined counts of the prefix, the failing path and
the suffix. -/
theorem C9_failing_path_does_not_abort (l1 l2 : List AbsPath)
    (base p : AbsPath) (σ : FS) (hl : p ∈ σ.live) (hf : p ∈ σ.failing) :
    perform_safe_deletion (l1 ++ p :: l2) base σ =
      (((perform_safe_deletion l1 base σ).1.1 +
          (perform_safe_deletion l2 base
            (perform_safe_deletion l1 base σ).2).1.1,
        (perform_safe_deletion l1 base σ).1.2 + 1 +
          (perform_safe_deletion l2 base
            (perform_safe_deletion l1 base σ).2).1.2),
       (perform_safe_deletion l2 base
          (perform_safe_deletion l1 base σ).2).2) := by
  have hpres := perform_preserves_failing_live base l1 σ p hl hf
  have hσf : p ∈ (perform_safe_deletion l1 base σ).2.failing := by
    rw [hpres.2]; exact hf
  have e1 : perform_safe_deletion (l1 ++ p :: l2) base σ =
      l2.foldl (delStep base)
        (delStep base (perform_safe_deletion l1 base σ) p) := by
    unfold perform_safe_deletion
    rw [List.foldl_append, List.foldl_cons]
  have hstep : delStep base (perform_safe_deletion l1 base σ) p =
      (((perform_safe_deletion l1 base σ).1.1,
        (perform_safe_deletion l1 base σ).1.2 + 1),
       (perform_safe_deletion l1 base σ).2) := by
    by_cases hss : ¬ inParents base p ∧ pathParent p ≠ base
    · exact delStep_safety base _ _ _ p hss
    · exact delStep_fail base _ _ _ p hss hpres.1 hσf
  rw [e1, hstep, foldl_delStep_shift]
  rfl

/-- Witness for C9 at a concrete input: the failing middle path is counted
as the single error and both its neighbours are still deleted. -/
theorem C9_witness :
    perform_safe_deletion
        ([["b", "x.png"]] ++ ["b", "bad.png"] :: [["b", "y.png"]]) ["b"]
        ⟨[["b", "x.png"], ["b", "bad.png"], ["b", "y.png"]],
         [["b", "bad.png"]]⟩ =
      ((2, 1), ⟨[["b", "bad.png"]], [["b", "bad.png"]]⟩) := by
  rw [C9_failing_path_does_not_abort [["b", "x.png"]] [["b", "y.png"]]
    ["b"] ["b", "bad.png"]
    ⟨[["b", "x.png"], ["b", "bad.png"], ["b", "y.png"]], [["b", "bad.png"]]⟩
    (by decide) (by decide)]
  decide

/-- Claim C10 (confirmed): on any non-empty input the GUI's deletion
returns the triple `(input size, 0, whole input)` — the loop's real
outcome is discarded, so the report is independent of the filesystem
state and of any unlink failures (the quantification over `σ` covers every
such state). -/
theorem C10_gui_reports_all (files : List AbsPath) (base : AbsPath)
    (σ : FS) (h : files ≠ []) :
    (gui_perform_safe_deletion files base σ).1 =
      GuiReturn.triple files.length 0 files := by
  simp only [gui_perform_safe_deletion, if_neg h]

/-- Witness for C10 at a concrete input: the single file does not even
exist, yet the GUI variant reports one successful deletion and no
errors. -/
theorem C10_gui_witness :
    (gui_perform_safe_deletion [["b", "a.png"]] ["b"] ⟨[], []⟩).1 =
      GuiReturn.triple 1 0 [["b", "a.png"]] := by
  have h := C10_gui_reports_all [["b", "a.png"]] ["b"] ⟨[], []⟩ (by decide)
  simpa using h

end RenpyImgPrune
